import Mathlib

/-!
Shallow embedding of the WebScraper-Demo repository (src/scraper.py and
src/app.py).  Strings are modelled as lists of characters (`Str`); the
Python string operations used by the code (strip, startswith, split/join,
slicing, rstrip) are modelled by explicit list functions.  Parsed pages are
modelled by the parts of the document the code actually inspects: for
`extract_people_data` a list, in document order, of the level-2 headings and
the person cards; for `find_category_links` the pathfinder link groups.
-/

abbrev Str : Type := List Char

def sToL (s : String) : Str := s.toList

namespace Scraper

/-- Whitespace predicate of Python `str.strip` / `str.split`. -/
def isWS (c : Char) : Bool :=
  c == ' ' || c == '\t' || c == '\n' || c == '\r' || c == '\x0b' || c == '\x0c'

def stripLeft (s : Str) : Str := s.dropWhile isWS

def stripRight (s : Str) : Str := (s.reverse.dropWhile isWS).reverse

/-- Python `s.strip()`. -/
def pyStrip (s : Str) : Str := stripRight (stripLeft s)

/-- Python `s.startswith(pre)`: `startsWithL pre s` is true when `pre` is an
initial segment of `s`. -/
def startsWithL : Str → Str → Bool
  | [], _ => true
  | _ :: _, [] => false
  | p :: ps, c :: cs => p == c && startsWithL ps cs

/-- Helper for Python `str.split()` (split on whitespace runs, dropping
empty pieces); `cur` accumulates the current word reversed. -/
def splitWsAux : Str → Str → List Str
  | [], cur => if cur = [] then [] else [cur.reverse]
  | c :: rest, cur =>
      if isWS c then
        if cur = [] then splitWsAux rest [] else cur.reverse :: splitWsAux rest []
      else splitWsAux rest (c :: cur)

/-- Python `s.split()` with no argument. -/
def pySplitWs (s : Str) : List Str := splitWsAux s []

/-- Python `' '.join(s.split())`: whitespace normalisation used on link text. -/
def joinSplit (s : Str) : Str := List.intercalate [' '] (pySplitWs s)

/-- The honorific list of `parse_name_and_honorific`, in source order. -/
def honorifics : List Str :=
  [sToL "Prof", sToL "A/Prof", sToL "Assoc Prof", sToL "Dr",
   sToL "Mr", sToL "Mrs", sToL "Ms", sToL "Miss"]

/-- The `for honorific in honorifics` loop: first prefix `h` of the list such
that the name starts with `h` followed by a space. -/
def findHonorific : List Str → Str → Option Str
  | [], _ => none
  | h :: rest, fn =>
      if startsWithL (h ++ [' ']) fn then some h else findHonorific rest fn

/-- `parse_name_and_honorific` from src/scraper.py: strip the input, scan the
honorific list, and on a match drop the prefix and strip again. -/
def parse_name_and_honorific (full_name : Str) : Str × Str :=
  let fn := pyStrip full_name
  match findHonorific honorifics fn with
  | some h => (pyStrip (fn.drop h.length), h)
  | none => (fn, [])

example : parse_name_and_honorific (sToL "Dr A Lee") = (sToL "A Lee", sToL "Dr") := by decide
example : parse_name_and_honorific (sToL "Mrston Smith") = (sToL "Mrston Smith", []) := by decide
example : parse_name_and_honorific (sToL "Assoc Prof Jo Ng") = (sToL "Jo Ng", sToL "Assoc Prof") := by decide

/-- An `<a>` element inside a card header: its raw text (`get_text()`) and
its `href` attribute (`none` when the attribute is absent, so that
`get('href', '')` yields the empty string). -/
structure Link where
  rawText : Str
  href : Option Str
deriving DecidableEq, Repr

/-- An `h3.card__header` element: its first `<a>` child if any, and its
`get_text(strip=True)` text used when there is no link. -/
structure Header where
  link : Option Link
  text : Str
deriving DecidableEq, Repr

/-- A `div.card` element: its first `h3.card__header` child if any, and the
`get_text(strip=True)` text of its first `div.card__sub-heading` if any. -/
structure Card where
  header : Option Header
  subHeading : Option Str
deriving DecidableEq, Repr

/-- A document node relevant to `extract_people_data`, in document order:
either an `h2` element (with a flag for whether it carries an `id`
attribute, and its `get_text(strip=True)` text) or a person card. -/
inductive PageItem where
  | h2 (hasId : Bool) (text : Str)
  | card (c : Card)
deriving DecidableEq, Repr

/-- One extracted person entry (the dict built per card in
`extract_people_data`; Python insertion order is name, honorific,
profile_url, title, category). -/
structure Record where
  name : Str
  honorific : Str
  title : Str
  category : Str
  profile_url : Str
deriving DecidableEq, Repr

/-- The hard-coded site origin of `extract_people_data`. -/
def ORIGIN : Str := sToL "https://cis.unimelb.edu.au"

/-- Profile URL resolution inlined in `extract_people_data` (lines 142-148):
keep an href starting with `http`, prepend the origin to a root-relative
href, otherwise join with a slash. -/
def resolveProfileHref (href : Str) : Str :=
  if startsWithL (sToL "http") href then href
  else if startsWithL (sToL "/") href then ORIGIN ++ href
  else ORIGIN ++ [ '/' ] ++ href

/-- The per-card body of the loop in `extract_people_data`: `none` exactly
when the card has no `h3.card__header` (the `continue` branch). -/
def processCard (c : Card) (cur : Str) : Option Record :=
  match c.header with
  | none => none
  | some h =>
      let nhu : Str × Str × Str :=
        match h.link with
        | some l =>
            let full := joinSplit l.rawText
            let nh := parse_name_and_honorific full
            (nh.1, nh.2, resolveProfileHref (l.href.getD []))
        | none =>
            let nh := parse_name_and_honorific h.text
            (nh.1, nh.2, sToL "N/A")
      let title := match c.subHeading with
        | some t => t
        | none => sToL "N/A"
      some ⟨nhu.1, nhu.2.1, title, cur, nhu.2.2⟩

/-- Headings excluded from category tracking. -/
def excludedHeadings : List Str := [sToL "Featured content", sToL "Site footer"]

/-- The `if prev_section:` block of `extract_people_data`: when a nearest
preceding `h2[id]` exists and its text is non-empty and not boilerplate, its
text replaces the running category, otherwise the category is kept. -/
def updateCategory (lastH2 : Option Str) (cur : Str) : Str :=
  match lastH2 with
  | some t => if t ≠ [] ∧ t ∉ excludedHeadings then t else cur
  | none => cur

/-- The card loop of `extract_people_data`.  `lastH2` is the nearest
preceding `h2` carrying an `id` attribute (what `card.find_previous('h2',
id=True)` returns for the cards that follow), and `cur` is the running
`current_category`. -/
def extractItems : List PageItem → Option Str → Str → List Record
  | [], _, _ => []
  | PageItem.h2 hasId t :: rest, lastH2, cur =>
      extractItems rest (if hasId then some t else lastH2) cur
  | PageItem.card c :: rest, lastH2, cur =>
      match processCard c (updateCategory lastH2 cur) with
      | some rec => rec :: extractItems rest lastH2 (updateCategory lastH2 cur)
      | none => extractItems rest lastH2 (updateCategory lastH2 cur)

/-- `extract_people_data` from src/scraper.py.  `current_category` starts as
`default_category or 'General'` (Python truthiness: an absent or empty
default falls back to `"General"`). -/
def extract_people_data (page : List PageItem) (default_category : Option Str := none) :
    List Record :=
  let cur := match default_category with
    | some d => if d = [] then sToL "General" else d
    | none => sToL "General"
  extractItems page none cur

/-- Python `s.rstrip('/')`. -/
def pyRstripSlash (s : Str) : Str := (s.reverse.dropWhile (fun c => c == '/')).reverse

/-- URL resolution inlined in `find_category_links` (lines 190-195); note
the different test order from `resolveProfileHref` and the use of the
`base_url` parameter. -/
def resolveCategoryHref (base href : Str) : Str :=
  if startsWithL (sToL "/") href then pyRstripSlash base ++ href
  else if startsWithL (sToL "http") href then href
  else pyRstripSlash base ++ [ '/' ] ++ href

/-- An `<a href=...>` element inside a pathfinder group: the stripped text
of its first `h3` child if any, and its `href` (present, since the code
selects `a[href]`). -/
structure CatLink where
  h3Text : Option Str
  href : Str
deriving DecidableEq, Repr

/-- `find_category_links` from src/scraper.py: the landing page is modelled
as its list of `ul.pathfinder-3` groups, each a list of `a[href]` elements. -/
def find_category_links (pathfinders : List (List CatLink)) (base_url : Str) :
    List (Str × Str) :=
  (pathfinders.map (fun pf =>
    pf.filterMap (fun l =>
      match l.h3Text with
      | some t => some (t, resolveCategoryHref base_url l.href)
      | none => none))).flatten

/-- A JSON value, modelling the value tree that `json.dump` in
`save_to_json` serialises and `json.load` in the dashboard's `load_data`
parses back (the text layer is the Python standard library, an external
collaborator per the spec). -/
inductive JValue where
  | jstr (s : Str)
  | jarr (xs : List JValue)
  | jobj (fields : List (Str × JValue))

/-- The JSON object written for one record; key order is the Python dict
insertion order of `extract_people_data`. -/
def encodeRecord (r : Record) : JValue :=
  JValue.jobj
    [(sToL "name", JValue.jstr r.name),
     (sToL "honorific", JValue.jstr r.honorific),
     (sToL "profile_url", JValue.jstr r.profile_url),
     (sToL "title", JValue.jstr r.title),
     (sToL "category", JValue.jstr r.category)]

/-- `save_to_json`: the array of record objects that `json.dump` writes. -/
def encodeRecords (rs : List Record) : JValue := JValue.jarr (rs.map encodeRecord)

/-- Reading one object back as a dashboard row: the five string fields under
their keys. -/
def decodeRecord : JValue → Option Record
  | JValue.jobj [(k1, JValue.jstr v1), (k2, JValue.jstr v2), (k3, JValue.jstr v3),
      (k4, JValue.jstr v4), (k5, JValue.jstr v5)] =>
      if k1 = sToL "name" ∧ k2 = sToL "honorific" ∧ k3 = sToL "profile_url" ∧
          k4 = sToL "title" ∧ k5 = sToL "category"
      then some ⟨v1, v2, v4, v5, v3⟩ else none
  | _ => none

def decodeRecordList : List JValue → Option (List Record)
  | [] => some []
  | x :: rest =>
      match decodeRecord x, decodeRecordList rest with
      | some r, some rs => some (r :: rs)
      | _, _ => none

/-- The dashboard's `load_data` on the JSON form: `json.load` gives the list
of row objects, in file order, which `pd.DataFrame` keeps as rows. -/
def decodeRecords : JValue → Option (List Record)
  | JValue.jarr xs => decodeRecordList xs
  | _ => none

/-- Error values raised by the fetch layer (exception messages). -/
abbrev Err : Type := List Char

/-- One network attempt made while fetching a page. -/
inductive Attempt where
  | requests
  | selenium
deriving DecidableEq, Repr

/-- A fetched, parsed page as seen by `extract_people_data`. -/
abbrev Page : Type := List PageItem

/-- `fetch_page` from src/scraper.py, with the outcomes of the two fetch
strategies for the requested URL passed in as `req` (what
`fetch_page_requests` would produce) and `sel` (what `fetch_page_selenium`
would produce), and instrumented with the list of network attempts it makes,
in order.  With `use_selenium` set it requires selenium (raising an
ImportError otherwise, before any network attempt); with it unset it tries
`requests` and on any failure falls back to selenium when available. -/
def fetch_page (seleniumAvailable useSelenium : Bool)
    (req sel : Except Err Page) : Except Err Page × List Attempt :=
  if useSelenium then
    if !seleniumAvailable then (Except.error (sToL "Selenium not installed"), [])
    else (sel, [Attempt.selenium])
  else
    match req with
    | Except.ok p => (Except.ok p, [Attempt.requests])
    | Except.error e =>
        if seleniumAvailable then (sel, [Attempt.requests, Attempt.selenium])
        else (Except.error e, [Attempt.requests])

/-- The landing-page fetch of `main` (lines 230-248): downgrade
`use_selenium` when selenium is unavailable, call `fetch_page`, and on an
exception retry once with `fetch_page(url, use_selenium=True)` when the
original call was plain-HTTP and selenium is available; otherwise re-raise. -/
def mainLandingFetch (seleniumAvailable useSelenium : Bool)
    (req sel : Except Err Page) : Except Err Page × List Attempt :=
  let useSel := useSelenium && seleniumAvailable
  match fetch_page seleniumAvailable useSel req sel with
  | (Except.ok p, t) => (Except.ok p, t)
  | (Except.error e, t) =>
      if !useSel && seleniumAvailable then
        let second := fetch_page seleniumAvailable true req sel
        (second.1, t ++ second.2)
      else (Except.error e, t)

/-- The category sub-page sweep of `main` (lines 262-272): for each
discovered `(category_name, category_url)` pair fetch and extract, extending
the accumulated list; any exception for one category is caught and that
category is skipped.  `fetchRes` gives the fetch outcome per URL. -/
def subPageSweep (links : List (Str × Str)) (fetchRes : Str → Except Err Page)
    (acc : List Record) : List Record :=
  match links with
  | [] => acc
  | (name, url) :: rest =>
      match fetchRes url with
      | Except.ok page =>
          subPageSweep rest fetchRes (acc ++ extract_people_data page (some name))
      | Except.error _ => subPageSweep rest fetchRes acc

/-- The persistence decision at the end of `main`: the accumulated list is
written out only when it is non-empty (`if all_people:`). -/
def persistedOutput (recs : List Record) : Option (List Record) :=
  if recs = [] then none else some recs

/-- Modelled from the spec: "if the raw link target is already absolute
(begins with a scheme), keep as-is".  A scheme per RFC 3986 is an ALPHA
followed by ALPHA / DIGIT / `+` / `-` / `.` characters and a colon; this
definition follows the spec wording and is compared against the code's
resolvers, which test the literal prefix `http` instead. -/
def schemeTail : Str → Bool
  | [] => false
  | c :: rest =>
      if c == ':' then true
      else (c.isAlpha || c.isDigit || c == '+' || c == '-' || c == '.') && schemeTail rest

/-- Modelled from the spec: whether a link target begins with a scheme. -/
def beginsWithScheme : Str → Bool
  | [] => false
  | c :: rest => c.isAlpha && schemeTail rest

/-- Modelled from the spec: the resolution rule of §4.2/§4.3 as worded —
absolute (scheme) hrefs kept, root-relative hrefs get the origin prepended,
anything else is joined onto the origin with a slash. -/
def specResolve (origin href : Str) : Str :=
  if beginsWithScheme href then href
  else if startsWithL (sToL "/") href then origin ++ href
  else origin ++ [ '/' ] ++ href

/-- The cards of a page, in document order. -/
def pageCards (page : List PageItem) : List Card :=
  page.filterMap (fun it =>
    match it with
    | PageItem.card c => some c
    | PageItem.h2 _ _ => none)

/-- The raw display string a card's header yields: the whitespace-collapsed
link text when a link exists, else the stripped bare header text (empty for
headerless cards, which are skipped). -/
def cardFullName (c : Card) : Str :=
  match c.header with
  | some h =>
      match h.link with
      | some l => joinSplit l.rawText
      | none => h.text
  | none => []

/-! ### Helper lemmas about the string model -/

lemma length_dropWhile_le (p : Char → Bool) (l : Str) :
    (l.dropWhile p).length ≤ l.length := by
  induction l with
  | nil => simp [List.dropWhile]
  | cons a t ih =>
      rw [List.dropWhile_cons]
      by_cases h : p a
      · simp only [h, if_true]
        calc (t.dropWhile p).length ≤ t.length := ih
          _ ≤ (a :: t).length := by simp
      · simp [h]

lemma dropWhile_eq_self_of_length (p : Char → Bool) (l : Str)
    (h : (l.dropWhile p).length = l.length) : l.dropWhile p = l := by
  cases l with
  | nil => simp
  | cons a t =>
      rw [List.dropWhile_cons] at h ⊢
      by_cases hp : p a
      · simp only [hp, if_true] at h ⊢
        have hle := length_dropWhile_le p t
        simp only [List.length_cons] at h
        omega
      · simp [hp]

lemma length_stripRight_le (l : Str) : (stripRight l).length ≤ l.length := by
  have h := length_dropWhile_le isWS l.reverse
  simp only [List.length_reverse] at h
  simpa only [stripRight, List.length_reverse] using h

lemma stripLeft_of_pyStrip (n : Str) (hn : pyStrip n = n) : stripLeft n = n := by
  have h1 : (stripRight (stripLeft n)).length ≤ (stripLeft n).length :=
    length_stripRight_le _
  have h2 : (stripLeft n).length ≤ n.length := by
    simpa only [stripLeft] using length_dropWhile_le isWS n
  have h3 : (pyStrip n).length = n.length := by rw [hn]
  unfold pyStrip at h3
  have h4 : (stripLeft n).length = n.length := by omega
  simp only [stripLeft] at h4 ⊢
  exact dropWhile_eq_self_of_length _ _ h4

lemma stripRight_of_pyStrip (n : Str) (hn : pyStrip n = n) : stripRight n = n := by
  have h := stripLeft_of_pyStrip n hn
  unfold pyStrip at hn
  rw [h] at hn
  exact hn

lemma stripLeft_cons_not (a : Char) (l : Str) (ha : isWS a = false) :
    stripLeft (a :: l) = a :: l := by
  simp [stripLeft, List.dropWhile_cons, ha]

lemma stripLeft_cons_ws (a : Char) (l : Str) (ha : isWS a = true) :
    stripLeft (a :: l) = stripLeft l := by
  simp [stripLeft, List.dropWhile_cons, ha]

lemma stripRight_concat (m : Str) (c : Char) (hc : isWS c = false) :
    stripRight (m ++ [c]) = m ++ [c] := by
  simp [stripRight, List.reverse_append, List.dropWhile_cons, hc]

lemma stripRight_append (l n : Str) (hn : stripRight n = n) (hne : n ≠ []) :
    stripRight (l ++ n) = l ++ n := by
  rcases List.eq_nil_or_concat n with h | ⟨m, c, h⟩
  · exact absurd h hne
  · rw [List.concat_eq_append] at h
    subst h
    have hc : isWS c = false := by
      cases hh : isWS c
      · rfl
      · exfalso
        have he : stripRight (m ++ [c]) = (List.dropWhile isWS m.reverse).reverse := by
          simp [stripRight, List.reverse_append, List.dropWhile_cons, hh]
        have hlen : (stripRight (m ++ [c])).length ≤ m.length := by
          rw [he]
          have h2 := length_dropWhile_le isWS m.reverse
          simpa only [List.length_reverse] using h2
        rw [hn] at hlen
        simp only [List.length_append, List.length_cons, List.length_nil] at hlen
        omega
    calc stripRight (l ++ (m ++ [c])) = stripRight ((l ++ m) ++ [c]) := by
          rw [List.append_assoc]
      _ = (l ++ m) ++ [c] := stripRight_concat _ _ hc
      _ = l ++ (m ++ [c]) := by rw [List.append_assoc]

lemma pyStrip_eq_self (a : Char) (l n : Str) (ha : isWS a = false)
    (hn : stripRight n = n) (hne : n ≠ []) :
    pyStrip ((a :: l) ++ n) = (a :: l) ++ n := by
  unfold pyStrip
  rw [show (a :: l) ++ n = a :: (l ++ n) from rfl]
  rw [stripLeft_cons_not a _ ha]
  rw [show a :: (l ++ n) = (a :: l) ++ n from rfl]
  exact stripRight_append _ _ hn hne

lemma pyStrip_cons_ws (a : Char) (n : Str) (ha : isWS a = true) :
    pyStrip (a :: n) = pyStrip n := by
  unfold pyStrip
  rw [stripLeft_cons_ws a _ ha]

lemma startsWithL_cons_decomp (a : Char) (pre s : Str)
    (h : startsWithL (a :: pre) s = true) :
    ∃ t, s = a :: t ∧ startsWithL pre t = true := by
  cases s with
  | nil => simp [startsWithL] at h
  | cons c cs =>
      simp only [startsWithL, Bool.and_eq_true, beq_iff_eq] at h
      exact ⟨cs, by rw [h.1], h.2⟩

lemma slash_not_http (x : Str) (h : startsWithL (sToL "/") x = true) :
    startsWithL (sToL "http") x = false := by
  obtain ⟨t, rfl, -⟩ := startsWithL_cons_decomp '/' [] x h
  rfl

lemma head?_ne (a b : Char) (s t : Str) (hs : s.head? = some a)
    (ht : t.head? = some b) (hne : a ≠ b) : s ≠ t := by
  intro h
  subst h
  rw [hs] at ht
  exact hne (Option.some.inj ht)

/-! ### Helper lemmas about the extractor -/

lemma extractItems_nil (l : Option Str) (cur : Str) : extractItems [] l cur = [] := rfl

lemma extractItems_h2_id (t : Str) (rest : List PageItem) (l : Option Str) (cur : Str) :
    extractItems (PageItem.h2 true t :: rest) l cur = extractItems rest (some t) cur := rfl

lemma extractItems_h2_noid (t : Str) (rest : List PageItem) (l : Option Str) (cur : Str) :
    extractItems (PageItem.h2 false t :: rest) l cur = extractItems rest l cur := rfl

lemma extractItems_card (c : Card) (rest : List PageItem) (l : Option Str) (cur : Str) :
    extractItems (PageItem.card c :: rest) l cur
      = match processCard c (updateCategory l cur) with
        | some r => r :: extractItems rest l (updateCategory l cur)
        | none => extractItems rest l (updateCategory l cur) := rfl

lemma extractItems_card_some (c : Card) (rest : List PageItem) (l : Option Str)
    (cur : Str) (r : Record) (h : processCard c (updateCategory l cur) = some r) :
    extractItems (PageItem.card c :: rest) l cur
      = r :: extractItems rest l (updateCategory l cur) := by
  rw [extractItems_card, h]

lemma extractItems_card_none (c : Card) (rest : List PageItem) (l : Option Str)
    (cur : Str) (h : processCard c (updateCategory l cur) = none) :
    extractItems (PageItem.card c :: rest) l cur
      = extractItems rest l (updateCategory l cur) := by
  rw [extractItems_card, h]

lemma updateCategory_none (cur : Str) : updateCategory none cur = cur := rfl

lemma updateCategory_some_pos (t cur : Str) (h : t ≠ [] ∧ t ∉ excludedHeadings) :
    updateCategory (some t) cur = t := by
  simp only [updateCategory, if_pos h]

lemma updateCategory_some_neg (t cur : Str) (h : ¬(t ≠ [] ∧ t ∉ excludedHeadings)) :
    updateCategory (some t) cur = cur := by
  simp only [updateCategory, if_neg h]

lemma processCard_none (c : Card) (cat : Str) (hc : c.header = none) :
    processCard c cat = none := by
  unfold processCard
  rw [hc]

lemma processCard_spec (lnk : Option Link) (tx : Str) (sub : Option Str) (cat : Str) :
    ∃ r, processCard ⟨some ⟨lnk, tx⟩, sub⟩ cat = some r ∧ r.category = cat
      ∧ r.name = (parse_name_and_honorific (cardFullName ⟨some ⟨lnk, tx⟩, sub⟩)).1 := by
  cases lnk with
  | some l => exact ⟨_, rfl, rfl, rfl⟩
  | none => exact ⟨_, rfl, rfl, rfl⟩

lemma processCard_url (lnk : Option Link) (tx : Str) (sub : Option Str) (cat : Str) :
    ∃ r, processCard ⟨some ⟨lnk, tx⟩, sub⟩ cat = some r
      ∧ r.profile_url = (match lnk with
          | some l => resolveProfileHref (l.href.getD [])
          | none => sToL "N/A") := by
  cases lnk with
  | some l => exact ⟨_, rfl, rfl⟩
  | none => exact ⟨_, rfl, rfl⟩

lemma extract_people_data_def (page : List PageItem) (d : Option Str) :
    extract_people_data page d
      = extractItems page none (match d with
          | some s => if s = [] then sToL "General" else s
          | none => sToL "General") := rfl

lemma extractItems_names (items : List PageItem) :
    ∀ (l : Option Str) (cur : Str),
      (extractItems items l cur).map Record.name
        = ((pageCards items).filter (fun c => c.header.isSome)).map
            (fun c => (parse_name_and_honorific (cardFullName c)).1) := by
  induction items with
  | nil => intro l cur; rfl
  | cons it rest ih =>
      intro l cur
      cases it with
      | h2 hasId t =>
          cases hasId
          · rw [extractItems_h2_noid, ih]
            simp [pageCards]
          · rw [extractItems_h2_id, ih]
            simp [pageCards]
      | card c =>
          obtain ⟨hdr, sub⟩ := c
          cases hdr with
          | none =>
              rw [extractItems_card_none _ rest l cur (processCard_none _ _ rfl), ih]
              simp [pageCards]
          | some h =>
              obtain ⟨lnk, tx⟩ := h
              obtain ⟨r, hr, -, hrname⟩ := processCard_spec lnk tx sub (updateCategory l cur)
              rw [extractItems_card_some _ rest l cur r hr]
              rw [List.map_cons, ih]
              simp [pageCards, hrname]

lemma extract_single_card_url (lnk : Option Link) (tx : Str) (sub : Option Str) (cur : Str) :
    (extractItems [PageItem.card ⟨some ⟨lnk, tx⟩, sub⟩] none cur).map Record.profile_url
      = [(match lnk with
          | some l => resolveProfileHref (l.href.getD [])
          | none => sToL "N/A")] := by
  obtain ⟨r, hr, hu⟩ := processCard_url lnk tx sub (updateCategory none cur)
  rw [extractItems_card_some _ [] none cur r hr, extractItems_nil]
  simp [hu]

lemma resolveProfileHref_ne_na (x : Str) : resolveProfileHref x ≠ sToL "N/A" := by
  unfold resolveProfileHref
  cases h1 : startsWithL (sToL "http") x with
  | false =>
      cases h2 : startsWithL (sToL "/") x with
      | false =>
          simp only [h1, h2, if_false, Bool.false_eq_true, if_neg]
          exact head?_ne 'h' 'N' _ _ rfl rfl (by decide)
      | true =>
          simp only [h1, h2, if_true, Bool.false_eq_true, if_neg, if_pos]
          exact head?_ne 'h' 'N' _ _ rfl rfl (by decide)
  | true =>
      obtain ⟨t, rfl, -⟩ := startsWithL_cons_decomp 'h' (sToL "ttp") x h1
      simp only [h1, if_pos]
      exact head?_ne 'h' 'N' _ _ rfl rfl (by decide)

/-! ### Helper lemmas about the orchestrator sweep -/

lemma subPageSweep_acc_le (links : List (Str × Str)) (f : Str → Except Err Page) :
    ∀ acc : List Record, acc <+: subPageSweep links f acc := by
  induction links with
  | nil => intro acc; exact List.prefix_refl _
  | cons p rest ih =>
      intro acc
      obtain ⟨name, url⟩ := p
      cases hf : f url with
      | ok page =>
          have h1 : acc <+: acc ++ extract_people_data page (some name) :=
            List.prefix_append _ _
          have h2 := ih (acc ++ extract_people_data page (some name))
          simpa [subPageSweep, hf] using h1.trans h2
      | error e => simpa [subPageSweep, hf] using ih acc

lemma subPageSweep_skip (l : Str × Str) (post : List (Str × Str))
    (f : Str → Except Err Page) (e : Err) (hf : f l.2 = Except.error e) :
    ∀ (pre : List (Str × Str)) (acc : List Record),
      subPageSweep (pre ++ l :: post) f acc = subPageSweep (pre ++ post) f acc := by
  intro pre
  induction pre with
  | nil =>
      intro acc
      obtain ⟨name, url⟩ := l
      simp only [List.nil_append]
      simp [subPageSweep, hf]
  | cons p pre ih =>
      intro acc
      obtain ⟨name, url⟩ := p
      cases hfp : f url with
      | ok page => simp [subPageSweep, hfp, ih]
      | error e2 => simp [subPageSweep, hfp, ih]

lemma extract_people_data_none (page : List PageItem) :
    extract_people_data page none = extractItems page none (sToL "General") := rfl

lemma processCard_category_of_isSome (c : Card) (cat : Str)
    (h : c.header.isSome = true) :
    ∃ r, processCard c cat = some r ∧ r.category = cat := by
  obtain ⟨hdr, sub⟩ := c
  cases hdr with
  | none => simp at h
  | some hd =>
      obtain ⟨lnk, tx⟩ := hd
      obtain ⟨r, hr, hcat, -⟩ := processCard_spec lnk tx sub cat
      exact ⟨r, hr, hcat⟩

lemma parse_of_matched (p n : Str) (hn : pyStrip n = n)
    (hstrip : pyStrip (p ++ ' ' :: n) = p ++ ' ' :: n)
    (hfind : findHonorific honorifics (p ++ ' ' :: n) = some p) :
    parse_name_and_honorific (p ++ ' ' :: n) = (n, p) := by
  simp only [parse_name_and_honorific]
  rw [hstrip, hfind]
  show (pyStrip ((p ++ ' ' :: n).drop p.length), p) = (n, p)
  rw [List.drop_left, pyStrip_cons_ws ' ' n (by decide), hn]

/-- Demonstration fetch outcome map used to instantiate the orchestrator
theorems on concrete data: the URL `ua` fails, every other URL succeeds. -/
def demoFetch : Str → Except Err Page := fun u =>
  if u = sToL "ua" then Except.error (sToL "boom")
  else Except.ok [PageItem.card ⟨some ⟨none, sToL "Dr X Y"⟩, none⟩]

/-- A demonstration accumulated record list. -/
def demoAcc : List Record := [⟨sToL "Zed", [], sToL "N/A", sToL "General", sToL "N/A"⟩]

/-! ### Claim theorems -/

/-- C2: for every recognized honorific prefix `p` and every non-empty
whitespace-trimmed base name `n` that does not itself start with another
recognized prefix followed by a space, `parse_name_and_honorific` on
`p ++ " " ++ n` returns `(n, p)`; in particular the compound prefixes
`Assoc Prof` and `A/Prof` are matched as wholes. -/
theorem C2_split_prefixed (p n : Str) (hp : p ∈ honorifics) (hne : n ≠ [])
    (hn : pyStrip n = n)
    (hnp : ∀ q ∈ honorifics, q ≠ p → startsWithL (q ++ [' ']) n = false) :
    parse_name_and_honorific (p ++ ' ' :: n) = (n, p) := by
  have hsr := stripRight_of_pyStrip n hn
  simp only [honorifics, List.mem_cons, List.not_mem_nil, or_false] at hp
  rcases hp with rfl | rfl | rfl | rfl | rfl | rfl | rfl | rfl
  · exact parse_of_matched _ n hn (by
      show pyStrip (('P' :: sToL "rof ") ++ n) = ('P' :: sToL "rof ") ++ n
      exact pyStrip_eq_self 'P' _ n (by decide) hsr hne) rfl
  · exact parse_of_matched _ n hn (by
      show pyStrip (('A' :: sToL "/Prof ") ++ n) = ('A' :: sToL "/Prof ") ++ n
      exact pyStrip_eq_self 'A' _ n (by decide) hsr hne) rfl
  · exact parse_of_matched _ n hn (by
      show pyStrip (('A' :: sToL "ssoc Prof ") ++ n) = ('A' :: sToL "ssoc Prof ") ++ n
      exact pyStrip_eq_self 'A' _ n (by decide) hsr hne) rfl
  · exact parse_of_matched _ n hn (by
      show pyStrip (('D' :: sToL "r ") ++ n) = ('D' :: sToL "r ") ++ n
      exact pyStrip_eq_self 'D' _ n (by decide) hsr hne) rfl
  · exact parse_of_matched _ n hn (by
      show pyStrip (('M' :: sToL "r ") ++ n) = ('M' :: sToL "r ") ++ n
      exact pyStrip_eq_self 'M' _ n (by decide) hsr hne) rfl
  · exact parse_of_matched _ n hn (by
      show pyStrip (('M' :: sToL "rs ") ++ n) = ('M' :: sToL "rs ") ++ n
      exact pyStrip_eq_self 'M' _ n (by decide) hsr hne) rfl
  · exact parse_of_matched _ n hn (by
      show pyStrip (('M' :: sToL "s ") ++ n) = ('M' :: sToL "s ") ++ n
      exact pyStrip_eq_self 'M' _ n (by decide) hsr hne) rfl
  · exact parse_of_matched _ n hn (by
      show pyStrip (('M' :: sToL "iss ") ++ n) = ('M' :: sToL "iss ") ++ n
      exact pyStrip_eq_self 'M' _ n (by decide) hsr hne) rfl

/-- C2 witness: concrete instances, including the compound prefixes. -/
theorem C2_split_prefixed_witness :
    sToL "Assoc Prof" ∈ honorifics ∧ sToL "Jane Doe" ≠ [] ∧
    pyStrip (sToL "Jane Doe") = sToL "Jane Doe" ∧
    parse_name_and_honorific (sToL "Assoc Prof" ++ ' ' :: sToL "Jane Doe")
      = (sToL "Jane Doe", sToL "Assoc Prof") ∧
    parse_name_and_honorific (sToL "A/Prof" ++ ' ' :: sToL "Kim Lo")
      = (sToL "Kim Lo", sToL "A/Prof") :=
  ⟨by decide, by decide, by decide,
   C2_split_prefixed _ _ (by decide) (by decide) (by decide) (by decide),
   C2_split_prefixed _ _ (by decide) (by decide) (by decide) (by decide)⟩

/-- C3: a whitespace-normalized input that does not begin with a recognized
honorific prefix followed by a space is returned unchanged with an empty
honorific; a prefix-like substring not followed by a space never matches. -/
theorem C3_split_unprefixed (m : Str) (hm : pyStrip m = m)
    (hno : ∀ q ∈ honorifics, startsWithL (q ++ [' ']) m = false) :
    parse_name_and_honorific m = (m, []) := by
  have h1 : startsWithL (sToL "Prof" ++ [' ']) m = false := hno _ (by decide)
  have h2 : startsWithL (sToL "A/Prof" ++ [' ']) m = false := hno _ (by decide)
  have h3 : startsWithL (sToL "Assoc Prof" ++ [' ']) m = false := hno _ (by decide)
  have h4 : startsWithL (sToL "Dr" ++ [' ']) m = false := hno _ (by decide)
  have h5 : startsWithL (sToL "Mr" ++ [' ']) m = false := hno _ (by decide)
  have h6 : startsWithL (sToL "Mrs" ++ [' ']) m = false := hno _ (by decide)
  have h7 : startsWithL (sToL "Ms" ++ [' ']) m = false := hno _ (by decide)
  have h8 : startsWithL (sToL "Miss" ++ [' ']) m = false := hno _ (by decide)
  have hfind : findHonorific honorifics m = none := by
    simp [findHonorific, honorifics, h1, h2, h3, h4, h5, h6, h7, h8]
  simp only [parse_name_and_honorific]
  rw [hm, hfind]

/-- C3 witness: the `Mrston Smith` instance — `Mrs` is not matched because
it is not followed by a space, and the input comes back unchanged. -/
theorem C3_split_unprefixed_witness :
    pyStrip (sToL "Mrston Smith") = sToL "Mrston Smith" ∧
    parse_name_and_honorific (sToL "Mrston Smith") = (sToL "Mrston Smith", []) :=
  ⟨by decide, C3_split_unprefixed _ (by decide) (by decide)⟩

/-- C1 counterexample: a card whose header element exists but has no link
and empty text is NOT skipped — `extract_people_data` emits a record whose
`name` is the empty string, refuting the claim that every stored record has
a non-empty name. -/
theorem C1_empty_name_cex :
    extract_people_data [PageItem.card ⟨some ⟨none, []⟩, none⟩] none
      = [⟨[], [], sToL "N/A", sToL "General", sToL "N/A"⟩]
    ∧ (extract_people_data [PageItem.card ⟨some ⟨none, []⟩, none⟩] none).map Record.name
        = [[]] :=
  ⟨by decide, by decide⟩

/-- C1 (amended): records are emitted exactly for the cards that have a
header element, in document order, and each record's name is the parse of
the card's header-derived display string — so a card with no header is
skipped entirely, while a header with empty text yields a record with empty
name. -/
theorem C1_names_of_header_cards (page : List PageItem) (d : Option Str) :
    (extract_people_data page d).map Record.name
      = ((pageCards page).filter (fun c => c.header.isSome)).map
          (fun c => (parse_name_and_honorific (cardFullName c)).1) := by
  rw [extract_people_data_def]
  exact extractItems_names page none _

/-- C4 counterexample: an href beginning with the scheme `ftp:` is absolute
under the spec's rule and must be kept unchanged, but both resolvers join it
onto the origin because they test the literal prefix `http`. -/
theorem C4_scheme_cex :
    resolveProfileHref (sToL "ftp://files.example.com/x")
        ≠ specResolve ORIGIN (sToL "ftp://files.example.com/x")
    ∧ resolveCategoryHref ORIGIN (sToL "ftp://files.example.com/x")
        ≠ specResolve ORIGIN (sToL "ftp://files.example.com/x")
    ∧ specResolve ORIGIN (sToL "ftp://files.example.com/x")
        = sToL "ftp://files.example.com/x"
    ∧ resolveProfileHref (sToL "ftp://files.example.com/x")
        = sToL "https://cis.unimelb.edu.au/ftp://files.example.com/x" :=
  ⟨by decide, by decide, by decide, by decide⟩

/-- C4 (amended): with the absoluteness test read as the literal prefix
`http` (as the code implements it), the card extractor's resolution and the
category link finder's resolution obey the same three-case rule whenever the
finder's base URL rstrips to the site origin: `http`-prefixed hrefs kept,
root-relative hrefs get the origin prepended, anything else is joined onto
the origin with a slash. -/
theorem C4_resolution_rule (base href : Str) (hbase : pyRstripSlash base = ORIGIN) :
    resolveCategoryHref base href = resolveProfileHref href
    ∧ (startsWithL (sToL "http") href = true → resolveProfileHref href = href)
    ∧ (startsWithL (sToL "http") href = false → startsWithL (sToL "/") href = true →
        resolveProfileHref href = ORIGIN ++ href)
    ∧ (startsWithL (sToL "http") href = false → startsWithL (sToL "/") href = false →
        resolveProfileHref href = ORIGIN ++ [ '/' ] ++ href)
    ∧ resolveProfileHref (sToL "/people/john") = sToL "https://cis.unimelb.edu.au/people/john"
    ∧ resolveProfileHref (sToL "john") = sToL "https://cis.unimelb.edu.au/john" := by
  refine ⟨?_, ?_, ?_, ?_, by decide, by decide⟩
  · unfold resolveCategoryHref resolveProfileHref
    rw [hbase]
    cases h1 : startsWithL (sToL "/") href with
    | false =>
        cases h2 : startsWithL (sToL "http") href with
        | false => simp [h1, h2]
        | true => simp [h1, h2]
    | true =>
        have h2 := slash_not_http href h1
        simp [h1, h2]
  · intro h
    simp [resolveProfileHref, h]
  · intro h1 h2
    simp [resolveProfileHref, h1, h2]
  · intro h1 h2
    simp [resolveProfileHref, h1, h2]

/-- C4 witness: the two resolvers agree at the call site's base URL on a
root-relative href. -/
theorem C4_resolution_rule_witness :
    pyRstripSlash (sToL "https://cis.unimelb.edu.au") = ORIGIN
    ∧ resolveCategoryHref (sToL "https://cis.unimelb.edu.au") (sToL "/people/john")
        = resolveProfileHref (sToL "/people/john") :=
  ⟨by decide, (C4_resolution_rule _ _ (by decide)).1⟩

/-- C5: category assignment is a forward scan — a qualifying `h2[id]`
heading replaces the running category for all subsequent cards until the
next qualifying heading, and a non-qualifying heading such as `Site footer`
between two cards leaves the later card's category unchanged.  With heading
H1, cards A,B, heading H2, cards C,D and no default, the categories are
H1,H1,H2,H2. -/
theorem C5_category_propagation (H1 H2 : Str) (A B C D : Card)
    (hA : A.header.isSome = true) (hB : B.header.isSome = true)
    (hC : C.header.isSome = true) (hD : D.header.isSome = true)
    (hH1 : H1 ≠ [] ∧ H1 ∉ excludedHeadings) (hH2 : H2 ≠ [] ∧ H2 ∉ excludedHeadings) :
    (extract_people_data [PageItem.h2 true H1, PageItem.card A, PageItem.card B,
        PageItem.h2 true H2, PageItem.card C, PageItem.card D] none).map Record.category
      = [H1, H1, H2, H2]
    ∧ (extract_people_data [PageItem.h2 true H1, PageItem.card A,
        PageItem.h2 true (sToL "Site footer"), PageItem.card B] none).map Record.category
      = [H1, H1] := by
  have hu1 : updateCategory (some H1) (sToL "General") = H1 := updateCategory_some_pos H1 _ hH1
  have hu2 : updateCategory (some H1) H1 = H1 := updateCategory_some_pos H1 _ hH1
  have hu3 : updateCategory (some H2) H1 = H2 := updateCategory_some_pos H2 _ hH2
  have hu4 : updateCategory (some H2) H2 = H2 := updateCategory_some_pos H2 _ hH2
  have hu5 : updateCategory (some (sToL "Site footer")) H1 = H1 :=
    updateCategory_some_neg _ _ (by decide)
  obtain ⟨rA, hrA, hcA⟩ := processCard_category_of_isSome A H1 hA
  obtain ⟨rB, hrB, hcB⟩ := processCard_category_of_isSome B H1 hB
  obtain ⟨rC, hrC, hcC⟩ := processCard_category_of_isSome C H2 hC
  obtain ⟨rD, hrD, hcD⟩ := processCard_category_of_isSome D H2 hD
  constructor
  · rw [extract_people_data_none]
    rw [extractItems_h2_id]
    rw [extractItems_card_some A _ _ _ rA (by rw [hu1]; exact hrA), hu1]
    rw [extractItems_card_some B _ _ _ rB (by rw [hu2]; exact hrB), hu2]
    rw [extractItems_h2_id]
    rw [extractItems_card_some C _ _ _ rC (by rw [hu3]; exact hrC), hu3]
    rw [extractItems_card_some D _ _ _ rD (by rw [hu4]; exact hrD), hu4]
    rw [extractItems_nil]
    simp [hcA, hcB, hcC, hcD]
  · rw [extract_people_data_none]
    rw [extractItems_h2_id]
    rw [extractItems_card_some A _ _ _ rA (by rw [hu1]; exact hrA), hu1]
    rw [extractItems_h2_id]
    rw [extractItems_card_some B _ _ _ rB (by rw [hu5]; exact hrB), hu5]
    rw [extractItems_nil]
    simp [hcA, hcB]

/-- C5 witness: the two-heading four-card scenario on concrete data. -/
theorem C5_category_propagation_witness :
    ((sToL "Deans" ≠ [] ∧ sToL "Deans" ∉ excludedHeadings)
      ∧ (sToL "Fellows" ≠ [] ∧ sToL "Fellows" ∉ excludedHeadings))
    ∧ (extract_people_data [PageItem.h2 true (sToL "Deans"),
        PageItem.card ⟨some ⟨none, sToL "P Q"⟩, none⟩,
        PageItem.card ⟨some ⟨none, sToL "R S"⟩, none⟩,
        PageItem.h2 true (sToL "Fellows"),
        PageItem.card ⟨some ⟨none, sToL "T U"⟩, none⟩,
        PageItem.card ⟨some ⟨none, sToL "V W"⟩, none⟩] none).map Record.category
      = [sToL "Deans", sToL "Deans", sToL "Fellows", sToL "Fellows"] :=
  ⟨⟨by decide, by decide⟩,
   (C5_category_propagation (sToL "Deans") (sToL "Fellows") _ _ _ _
      (by decide) (by decide) (by decide) (by decide) (by decide) (by decide)).1⟩

/-- C6: during the sub-page sweep, a category whose fetch fails is skipped —
the sweep's result equals the sweep over the other categories alone, the
previously accumulated records remain an unchanged initial segment of the
result, and the persisted output is the same as if the failing category had
not been listed; the failure never aborts the sweep. -/
theorem C6_category_failure_skipped (pre post : List (Str × Str)) (l : Str × Str)
    (f : Str → Except Err Page) (acc : List Record) (e : Err)
    (hf : f l.2 = Except.error e) :
    subPageSweep (pre ++ l :: post) f acc = subPageSweep (pre ++ post) f acc
    ∧ acc <+: subPageSweep (pre ++ l :: post) f acc
    ∧ persistedOutput (subPageSweep (pre ++ l :: post) f acc)
        = persistedOutput (subPageSweep (pre ++ post) f acc) := by
  have hskip := subPageSweep_skip l post f e hf pre acc
  exact ⟨hskip, subPageSweep_acc_le _ f acc, by rw [hskip]⟩

/-- C6 witness: one failing category between accumulated records and a
succeeding category. -/
theorem C6_category_failure_skipped_witness :
    demoFetch ((sToL "Bad", sToL "ua") : Str × Str).2 = Except.error (sToL "boom")
    ∧ subPageSweep ([] ++ (sToL "Bad", sToL "ua") :: [(sToL "Good", sToL "ug")])
        demoFetch demoAcc
      = subPageSweep ([] ++ [(sToL "Good", sToL "ug")]) demoFetch demoAcc
    ∧ demoAcc <+: subPageSweep ([] ++ (sToL "Bad", sToL "ua") :: [(sToL "Good", sToL "ug")])
        demoFetch demoAcc :=
  ⟨rfl,
   (C6_category_failure_skipped [] [(sToL "Good", sToL "ug")] (sToL "Bad", sToL "ua")
      demoFetch demoAcc (sToL "boom") rfl).1,
   (C6_category_failure_skipped [] [(sToL "Good", sToL "ug")] (sToL "Bad", sToL "ua")
      demoFetch demoAcc (sToL "boom") rfl).2.1⟩

/-- C7 counterexample: with selenium available and a plain-HTTP landing
fetch whose requests attempt and selenium attempts all fail, the run makes
TWO selenium fallback attempts before aborting (one inside `fetch_page`, one
more from `main`'s retry), not exactly one. -/
theorem C7_double_fallback_cex :
    mainLandingFetch true false (Except.error (sToL "neterr")) (Except.error (sToL "selerr"))
      = (Except.error (sToL "selerr"),
         [Attempt.requests, Attempt.selenium, Attempt.selenium])
    ∧ List.count Attempt.selenium
        [Attempt.requests, Attempt.selenium, Attempt.selenium] = 2 :=
  ⟨rfl, by decide⟩

/-- C7 (amended): inside `fetch_page`, a failed plain-HTTP fetch triggers
exactly one selenium fallback attempt when selenium is available (and the
fallback's outcome is returned), and propagates the original failure
immediately when it is not; the orchestrator then catches a propagated
failure and retries once more with selenium, so the run aborts only after a
second fallback attempt. -/
theorem C7_fallback_policy (req sel : Except Err Page) (e : Err)
    (hreq : req = Except.error e) :
    fetch_page true false req sel = (sel, [Attempt.requests, Attempt.selenium])
    ∧ fetch_page false false req sel = (Except.error e, [Attempt.requests])
    ∧ (∀ e2, sel = Except.error e2 →
        mainLandingFetch true false req sel
          = (Except.error e2, [Attempt.requests, Attempt.selenium, Attempt.selenium]))
    ∧ (∀ p, sel = Except.ok p →
        mainLandingFetch true false req sel
          = (Except.ok p, [Attempt.requests, Attempt.selenium])) := by
  subst hreq
  refine ⟨rfl, rfl, ?_, ?_⟩
  · intro e2 h
    subst h
    rfl
  · intro p h
    subst h
    rfl

/-- C7 witness: the fallback policy on concrete fetch outcomes. -/
theorem C7_fallback_policy_witness :
    (Except.error (sToL "neterr") : Except Err Page) = Except.error (sToL "neterr")
    ∧ fetch_page true false (Except.error (sToL "neterr")) (Except.error (sToL "selerr"))
        = (Except.error (sToL "selerr"), [Attempt.requests, Attempt.selenium])
    ∧ fetch_page false false (Except.error (sToL "neterr")) (Except.error (sToL "selerr"))
        = (Except.error (sToL "neterr"), [Attempt.requests]) :=
  ⟨rfl,
   (C7_fallback_policy _ _ _ rfl).1,
   (C7_fallback_policy _ _ _ rfl).2.1⟩

/-- C8: writing any list of extracted records through the JSON persisted
form and loading it back as the dashboard does yields exactly the same
records — same count, same field values, same order. -/
theorem C8_json_roundtrip (rs : List Record) :
    decodeRecords (encodeRecords rs) = some rs := by
  have hrec : ∀ r : Record, decodeRecord (encodeRecord r) = some r := fun r => rfl
  have h : ∀ l : List Record, decodeRecordList (l.map encodeRecord) = some l := by
    intro l
    induction l with
    | nil => rfl
    | cons r rest ih => simp [List.map_cons, decodeRecordList, hrec, ih]
  simpa [decodeRecords, encodeRecords] using h rs

/-- C9: a card with bare heading text `Dr A Lee`, no link, no sub-heading
and no preceding qualifying heading, extracted with default category
`Research Fellows`, yields exactly the record
(`A Lee`, `Dr`, `N/A`, `Research Fellows`, `N/A`). -/
theorem C9_bare_heading_scenario :
    extract_people_data [PageItem.card ⟨some ⟨none, sToL "Dr A Lee"⟩, none⟩]
        (some (sToL "Research Fellows"))
      = [⟨sToL "A Lee", sToL "Dr", sToL "N/A", sToL "Research Fellows", sToL "N/A"⟩] := by
  decide

/-- C10: a card whose header link has a missing or empty `href` is emitted
with `profile_url` equal to the bare origin plus a trailing slash, never the
`N/A` sentinel; the sentinel appears exactly when the header has no link at
all. -/
theorem C10_empty_href_origin :
    (∀ (lnk : Link) (tx : Str) (sub : Option Str) (d : Option Str),
        (lnk.href = none ∨ lnk.href = some []) →
        (extract_people_data [PageItem.card ⟨some ⟨some lnk, tx⟩, sub⟩] d).map
            Record.profile_url
          = [sToL "https://cis.unimelb.edu.au/"])
    ∧ (∀ (tx : Str) (sub : Option Str) (d : Option Str),
        (extract_people_data [PageItem.card ⟨some ⟨none, tx⟩, sub⟩] d).map
            Record.profile_url
          = [sToL "N/A"])
    ∧ (∀ (lnk : Link) (tx : Str) (sub : Option Str) (d : Option Str),
        (extract_people_data [PageItem.card ⟨some ⟨some lnk, tx⟩, sub⟩] d).map
            Record.profile_url
          ≠ [sToL "N/A"]) := by
  refine ⟨?_, ?_, ?_⟩
  · intro lnk tx sub d h
    rw [extract_people_data_def, extract_single_card_url (some lnk) tx sub _]
    show [resolveProfileHref (lnk.href.getD [])] = [sToL "https://cis.unimelb.edu.au/"]
    rcases h with h0 | h0 <;> rw [h0] <;> decide
  · intro tx sub d
    rw [extract_people_data_def, extract_single_card_url none tx sub _]
  · intro lnk tx sub d heq
    rw [extract_people_data_def, extract_single_card_url (some lnk) tx sub _] at heq
    have h2 : resolveProfileHref (lnk.href.getD []) = sToL "N/A" := (List.cons.inj heq).1
    exact resolveProfileHref_ne_na _ h2

/-- C10 witness: a link with absent href resolves to the origin with a
trailing slash; a header with no link gets the sentinel. -/
theorem C10_empty_href_origin_witness :
    ((⟨sToL "Dr B Ho", none⟩ : Link).href = none ∨
        (⟨sToL "Dr B Ho", none⟩ : Link).href = some [])
    ∧ (extract_people_data [PageItem.card ⟨some ⟨some ⟨sToL "Dr B Ho", none⟩, sToL "x"⟩,
          none⟩] none).map Record.profile_url
        = [sToL "https://cis.unimelb.edu.au/"]
    ∧ (extract_people_data [PageItem.card ⟨some ⟨none, sToL "Dr B Ho"⟩, none⟩] none).map
          Record.profile_url
        = [sToL "N/A"] :=
  ⟨Or.inl rfl,
   C10_empty_href_origin.1 _ _ _ _ (Or.inl rfl),
   C10_empty_href_origin.2.1 _ _ _⟩

end Scraper
